import Mathlib

/-!
Verification of the scheduler data model declared in
src/go-go1.16.14/src/runtime/runtime2.go.

The file embeds, as Lean definitions, the status constants, the struct
fields relevant to the claims, and the two executable functions of the
file (waitReason.String and extendRandom).  Scheduler behaviour that the
file only declares (the implementation lives in proc.go, which is not
part of this repository snapshot) is modelled from the specification and
from the documentation comments attached to the declarations; every such
definition carries a doc comment saying so.
-/

/-! ## G status constants (runtime2.go lines 33-105) -/

/-- G status: goroutine just allocated, not yet initialized. -/
def _Gidle : Nat := 0

/-- G status: on a run queue, not executing user code, stack not owned. -/
def _Grunnable : Nat := 1

/-- G status: may execute user code; stack owned; assigned an M and a P. -/
def _Grunning : Nat := 2

/-- G status: executing a system call; stack owned; assigned an M. -/
def _Gsyscall : Nat := 3

/-- G status: blocked in the runtime, recorded on some wait queue. -/
def _Gwaiting : Nat := 4

/-- G status: unused, hardcoded in gdb scripts. -/
def _Gmoribund_unused : Nat := 5

/-- G status: currently unused goroutine; terminal, reusable. -/
def _Gdead : Nat := 6

/-- G status: currently unused constant. -/
def _Genqueue_unused : Nat := 7

/-- G status: the stack is being moved; owned by whoever set this status. -/
def _Gcopystack : Nat := 8

/-- G status: stopped for a suspendG preemption; like waiting but nothing
is yet responsible for making it runnable again. -/
def _Gpreempted : Nat := 9

/-- Scan bit: combined with a base status while GC scans the stack. -/
def _Gscan : Nat := 0x1000

/-- Scan-status constant from runtime2.go line 100. -/
def _Gscanrunnable : Nat := _Gscan + _Grunnable

/-- Scan-status constant from runtime2.go line 101. -/
def _Gscanrunning : Nat := _Gscan + _Grunning

/-- Scan-status constant from runtime2.go line 102. -/
def _Gscansyscall : Nat := _Gscan + _Gsyscall

/-- Scan-status constant from runtime2.go line 103. -/
def _Gscanwaiting : Nat := _Gscan + _Gwaiting

/-- Scan-status constant from runtime2.go line 104. -/
def _Gscanpreempted : Nat := _Gscan + _Gpreempted

/-- The defined scan-status constants, in source order. -/
def gScanStatuses : List Nat :=
  [_Gscanrunnable, _Gscanrunning, _Gscansyscall, _Gscanwaiting, _Gscanpreempted]

/-- All base (non-scan) G status constants, in source order. -/
def gBaseStatuses : List Nat :=
  [_Gidle, _Grunnable, _Grunning, _Gsyscall, _Gwaiting, _Gmoribund_unused,
   _Gdead, _Genqueue_unused, _Gcopystack, _Gpreempted]

/-- atomicstatus is a uint32; masking the scan bit off is
atomicstatus AND NOT _Gscan, computed in the 32-bit word. -/
def maskOutScan (s : Nat) : Nat := Nat.land s (Nat.xor 0xFFFFFFFF _Gscan)

/-! ## P status constants (runtime2.go lines 107-155) -/

/-- P status: not being used to run user code or the scheduler. -/
def _Pidle : Nat := 0

/-- P status: owned by an M and being used to run user code or the scheduler. -/
def _Prunning : Nat := 1

/-- P status: not running user code; affine to an M in a syscall but not
owned by it and stealable.  Leaving this status must be done with a CAS. -/
def _Psyscall : Nat := 2

/-- P status: halted for stop-the-world. -/
def _Pgcstop : Nat := 3

/-- P status: no longer used because GOMAXPROCS shrank; Ps are reused if
GOMAXPROCS increases.  A dead P is mostly stripped of its resources,
though a few things remain (e.g. trace buffers). -/
def _Pdead : Nat := 4

/-! ## waitReason (runtime2.go lines 1008-1077) -/

/-- The waitReasonStrings table, entry i being the description of wait
reason i (runtime2.go lines 1042-1070). -/
def waitReasonStrings : List String :=
  ["",
   "GC assist marking",
   "IO wait",
   "chan receive (nil chan)",
   "chan send (nil chan)",
   "dumping heap",
   "garbage collection",
   "garbage collection scan",
   "panicwait",
   "select",
   "select (no cases)",
   "GC assist wait",
   "GC sweep wait",
   "GC scavenge wait",
   "chan receive",
   "chan send",
   "finalizer wait",
   "force gc (idle)",
   "semacquire",
   "sleep",
   "sync.Cond.Wait",
   "timer goroutine (idle)",
   "trace reader (blocked)",
   "wait for GC cycle",
   "GC worker (idle)",
   "preempted",
   "debug call"]

/-- waitReason.String (runtime2.go lines 1072-1077).  A waitReason is a
uint8; the guard in the source is (w < 0 or w >= len(waitReasonStrings)),
and the first disjunct is vacuous over an unsigned value. -/
def waitReason.String (w : Nat) : String :=
  if w < 0 ∨ waitReasonStrings.length ≤ w then "unknown wait reason"
  else waitReasonStrings.getD w ""

/-! ## Task lifecycle classification (claim C1)

The G status doc comments of runtime2.go describe, for each status, which
lifecycle state the goroutine is in and who (if anyone) owns its stack.
The enforcing code lives in proc.go, which is not part of this snapshot;
the classification below transcribes those doc comments. -/

/-- The lifecycle states named by the G status documentation. -/
inductive GLifecycle where
  | justAllocated
  | onRunQueue
  | runningOnWorker
  | inSyscall
  | blockedOnWait
  | stackBeingCopied
  | preempted
  | dead
deriving DecidableEq, Fintype, Repr

/-- The G statuses that actually occur (excludes the two constants the
source marks unused). -/
def gUsedStatuses : List Nat :=
  [_Gidle, _Grunnable, _Grunning, _Gsyscall, _Gwaiting, _Gdead, _Gcopystack,
   _Gpreempted]

/-- Lifecycle state denoted by each base G status, per the doc comments on
the constants (runtime2.go lines 33-86). -/
def lifecycleOf (s : Nat) : Option GLifecycle :=
  if s = _Gidle then some .justAllocated
  else if s = _Grunnable then some .onRunQueue
  else if s = _Grunning then some .runningOnWorker
  else if s = _Gsyscall then some .inSyscall
  else if s = _Gwaiting then some .blockedOnWait
  else if s = _Gdead then some .dead
  else if s = _Gcopystack then some .stackBeingCopied
  else if s = _Gpreempted then some .preempted
  else none

/-- The parties that could touch a goroutine's stack. -/
inductive StackAccessor where
  | theGoroutine
  | scanSetter
  | copySetter
  | exitingWorker
deriving DecidableEq, Fintype, Repr

/-- Modelled from the spec and the G status doc comments: the owner of the
stack indicated by each status.  Runnable, waiting and preempted
goroutines own no stack (a channel operation's peeks under its own lock
are the documented exception for waiting and are outside this model);
running and syscall goroutines own their stack; a copystack or scan
status is owned by whoever set it; a dead G is owned by the exiting or
reusing worker. -/
def stackOwner (s : Nat) : Option StackAccessor :=
  if s = _Grunnable then none
  else if s = _Grunning then some .theGoroutine
  else if s = _Gsyscall then some .theGoroutine
  else if s = _Gwaiting then none
  else if s = _Gdead then some .exitingWorker
  else if s = _Gcopystack then some .copySetter
  else if s = _Gpreempted then none
  else if s ∈ gScanStatuses then some .scanSetter
  else none

/-- Modelled from the spec: a component may read or write the stack only
when it is the owner indicated by the atomic status. -/
def mayAccessStack (s : Nat) (a : StackAccessor) : Prop := stackOwner s = some a

instance (s : Nat) (a : StackAccessor) : Decidable (mayAccessStack s a) :=
  inferInstanceAs (Decidable (stackOwner s = some a))

instance {α : Type} (p : α → Prop) [DecidableEq α] [Fintype α]
    [DecidablePred p] : Decidable (∃! x, p x) :=
  inferInstanceAs (Decidable (∃ x, p x ∧ ∀ y, p y → y = x))

/-! ## Goroutine state machine (claim C3)

Modelled from the spec (section 4.1) and the _Gpreempted doc comment:
the transitions the scheduler performs on the atomic status.  The doc
comment states that nothing is responsible for readying a preempted G
until some suspendG CASes its status to _Gwaiting. -/

/-- One atomic status transition of a task, as listed in spec section 4.1
and in the status doc comments. -/
inductive GStep : Nat → Nat → Prop where
  | newproc : GStep _Gidle _Grunnable
  | dequeueRun : GStep _Grunnable _Grunning
  | yieldG : GStep _Grunning _Grunnable
  | park : GStep _Grunning _Gwaiting
  | ready : GStep _Gwaiting _Grunnable
  | enterSyscallG : GStep _Grunning _Gsyscall
  | exitSyscallG : GStep _Gsyscall _Grunning
  | startCopystack : GStep _Grunning _Gcopystack
  | finishCopystack : GStep _Gcopystack _Grunning
  | preemptPark : GStep _Grunning _Gpreempted
  | takeWakeResponsibility : GStep _Gpreempted _Gwaiting
  | exitG : GStep _Grunning _Gdead
  | reuseG : GStep _Gdead _Gidle

/-- A trace: the successive statuses a task moves through from a start
status, each adjacent pair being one GStep. -/
def GTrace : Nat → List Nat → Prop
  | _, [] => True
  | s, t :: rest => GStep s t ∧ GTrace t rest

/-! ## P state machine (claim C4)

Modelled from the spec (section 4.2) and the P status doc comments in
runtime2.go: the _Psyscall comment requires every exit from _Psyscall to
be a CAS (steal or retake) and warns of the ABA hazard; the syscalltick
field is documented as incremented on every system call. -/

/-- The P fields the syscall protocol touches: status, back-link to the
associated M (none if idle), and the syscall generation counter. -/
structure PState where
  status : Nat
  m : Option Nat
  syscalltick : Nat
deriving DecidableEq, Repr

/-- The operations of the token protocol; the CAS-labelled ones act by
compare-and-swap on the status word. -/
inductive PLabel where
  | lockedAcquire (mid : Nat)
  | releaseP
  | storeSyscall
  | casRetake (mid : Nat)
  | casSteal
  | casGcStop
  | stopForGC
  | startWorld
deriving DecidableEq, Repr

/-- Whether a label is one of the compare-and-swap operations. -/
def isCASLabel : PLabel → Bool
  | .casRetake _ => true
  | .casSteal => true
  | .casGcStop => true
  | _ => false

/-- Modelled from the spec: one step of the token protocol.  An idle token
is claimed under the scheduler lock; a running token is released, enters a
syscall by a lightweight store (bumping syscalltick), or halts for GC; a
syscall token leaves that status only by CAS - retaken by a worker,
stolen to idle, or taken for stop-the-world.  The retake CAS checks the
status word alone (the source of the ABA hazard), so any worker id may
appear in it. -/
def pstep (s : PState) (l : PLabel) : Option PState :=
  match l with
  | .lockedAcquire mid =>
      if s.status = _Pidle then some { s with status := _Prunning, m := some mid }
      else none
  | .releaseP =>
      if s.status = _Prunning then some { s with status := _Pidle, m := none }
      else none
  | .storeSyscall =>
      if s.status = _Prunning then
        some { s with status := _Psyscall, syscalltick := s.syscalltick + 1 }
      else none
  | .casRetake mid =>
      if s.status = _Psyscall then some { s with status := _Prunning, m := some mid }
      else none
  | .casSteal =>
      if s.status = _Psyscall then some { s with status := _Pidle, m := none }
      else none
  | .casGcStop =>
      if s.status = _Psyscall then some { s with status := _Pgcstop }
      else none
  | .stopForGC =>
      if s.status = _Prunning then some { s with status := _Pgcstop }
      else none
  | .startWorld =>
      if s.status = _Pgcstop then some { s with status := _Prunning }
      else none

/-- Run a sequence of token-protocol operations; none when a step fails. -/
def prun (s : PState) : List PLabel → Option PState
  | [] => some s
  | l :: ls =>
      match pstep s l with
      | none => none
      | some s2 => prun s2 ls

/-! ## Scheduler token accounting (claim C5)

Modelled from the spec (sections 3 and 8): allp holds one status per
existing token, len(allp) == gomaxprocs (the comment on allp in
runtime2.go line 1091), and every token in allp is idle, running,
in-syscall or stopped.  Token-status transitions and procresize are the
state changes. -/

/-- The four statuses a token in allp can be in between resizes. -/
def pLiveStatuses : List Nat := [_Pidle, _Prunning, _Psyscall, _Pgcstop]

/-- The scheduler-level view: the configured limit and the statuses of the
tokens in allp. -/
structure SchedModel where
  gomaxprocs : Nat
  allp : List Nat
deriving DecidableEq, Repr

/-- Number of tokens currently bearing a given status. -/
def countPStatus (sm : SchedModel) (st : Nat) : Nat :=
  (sm.allp.filter (fun x => x = st)).length

/-- The structural invariant: one token per unit of the configured limit,
each in one of the four live statuses. -/
def SchedInv (sm : SchedModel) : Prop :=
  sm.allp.length = sm.gomaxprocs ∧ ∀ st ∈ sm.allp, st ∈ pLiveStatuses

instance (sm : SchedModel) : Decidable (SchedInv sm) :=
  inferInstanceAs (Decidable (_ ∧ _))

/-- Modelled from the spec: a scheduler-level state change is either a
status transition of one existing token or a procresize to a new limit
(which re-establishes one live token per unit of the new limit). -/
inductive SchedStep : SchedModel → SchedModel → Prop where
  | tokenTransition (sm : SchedModel) (i newSt : Nat) (hi : i < sm.allp.length)
      (hnew : newSt ∈ pLiveStatuses) :
      SchedStep sm ⟨sm.gomaxprocs, sm.allp.set i newSt⟩
  | procresizeStep (sm : SchedModel) (statuses2 : List Nat)
      (h : ∀ st ∈ statuses2, st ∈ pLiveStatuses) :
      SchedStep sm ⟨statuses2.length, statuses2⟩

lemma filter_partition_pstatus : ∀ l : List Nat, (∀ x ∈ l, x ∈ pLiveStatuses) →
    (l.filter (fun x => x = _Pidle)).length +
    (l.filter (fun x => x = _Prunning)).length +
    (l.filter (fun x => x = _Psyscall)).length +
    (l.filter (fun x => x = _Pgcstop)).length = l.length := by
  intro l
  induction l with
  | nil => intro _; rfl
  | cons x xs ih =>
    intro h
    have hx : x ∈ pLiveStatuses := h x (List.mem_cons_self x xs)
    have hrec := ih (fun y hy => h y (List.mem_cons_of_mem x hy))
    simp only [_Pidle, _Prunning, _Psyscall, _Pgcstop] at hrec ⊢
    fin_cases hx <;>
      simp [List.filter_cons, _Pidle, _Prunning, _Psyscall, _Pgcstop] <;> omega

/-! ## Local run queue (claim C6) -/

/-- Local run queue capacity: the runq array is declared with 256
entries - runq [256]guintptr (runtime2.go line 619). -/
def runqCapacity : Nat := 256

/-- Modulus of the uint32 head and tail indices. -/
def uint32Mod : Nat := 4294967296

/-- The local-run-queue fields of the p struct (runtime2.go lines
615-629): head and tail indices over the bounded circular array, plus the
single runnext fast-path slot.  Tasks are represented by numeric ids. -/
structure PQueue where
  runqhead : Nat
  runqtail : Nat
  runq : List Nat
  runnext : Option Nat
deriving DecidableEq, Repr

/-- Modelled from the spec (section 4.3, dequeue order steps 1-2) and the
runnext doc comment: dequeue from the local queue.  The runnext slot, if
occupied, is taken in preference to the queue proper; otherwise the head
entry of the circular queue is taken, the queue being empty when head and
tail coincide. -/
def runqget (pp : PQueue) : Option Nat × PQueue :=
  match pp.runnext with
  | some g => (some g, { pp with runnext := none })
  | none =>
      if pp.runqhead = pp.runqtail then (none, pp)
      else (some (pp.runq.getD (pp.runqhead % runqCapacity) 0),
            { pp with runqhead := (pp.runqhead + 1) % uint32Mod })

/-! ## Token pool resizing (claim C7)

procresize lives in proc.go, which is not under src/; the model below is
built from the spec (Resource Token lifecycle) and from the _Pdead doc
comment in runtime2.go lines 150-154, which states that Ps are reused if
GOMAXPROCS increases and that a dead P keeps a few things such as trace
buffers. -/

/-- A resource token.  allocSeq stamps the allocation that created the
token and is never modified afterwards, so it tracks object identity;
hasCaches stands for the releasable per-token resources and traceBuf for
a retained diagnostic buffer. -/
structure PToken where
  id : Nat
  status : Nat
  allocSeq : Nat
  hasCaches : Bool
  traceBuf : Bool
deriving DecidableEq, Repr

/-- The pool of every token object ever allocated (the backing array of
allp), the number currently in use (gomaxprocs) and the allocation
counter stamping new tokens. -/
structure PPool where
  tokens : List PToken
  live : Nat
  nextAlloc : Nat
deriving DecidableEq, Repr

/-- Modelled from the spec and the _Pdead doc comment: retiring a token
releases its resources, marks it dead, and keeps diagnostic buffers. -/
def destroyP (t : PToken) : PToken :=
  { t with status := _Pdead, hasCaches := false }

/-- Modelled from the spec: putting a (new or revived) token into service
at index i.  Identity (allocSeq) and any retained trace buffer are kept;
caches are re-established. -/
def initP (i : Nat) (t : PToken) : PToken :=
  { t with id := i, status := _Pidle, hasCaches := true }

/-- A token freshly allocated at position i during a resize; its
allocation stamp continues the pool's counter. -/
def newP (pool : PPool) (i : Nat) : PToken :=
  { id := i, status := _Pidle, allocSeq := pool.nextAlloc + (i - pool.tokens.length),
    hasCaches := true, traceBuf := false }

/-- Modelled from the spec and the _Pdead doc comment: what resizing the
pool to nprocs tokens does to the token at position i.  A token at or
beyond the new limit but below the old one is destroyed yet stays in the
pool; a position between the old and the new limit reinitializes the
token already there when one exists (Ps are reused if GOMAXPROCS
increases) and receives a freshly allocated token only when the position
lies beyond every token ever created. -/
def resizeToken (pool : PPool) (nprocs i : Nat) : PToken :=
  let t0 := pool.tokens.getD i (newP pool i)
  let t1 := if nprocs ≤ i ∧ i < pool.live then destroyP t0 else t0
  if pool.live ≤ i ∧ i < nprocs then initP i t1 else t1

/-- Modelled from the spec: the pool after raising or lowering the
configured concurrency limit to nprocs. -/
def procresize (pool : PPool) (nprocs : Nat) : PPool :=
  { tokens := (List.range (max pool.tokens.length nprocs)).map (resizeToken pool nprocs),
    live := nprocs,
    nextAlloc := pool.nextAlloc + (nprocs - pool.tokens.length) }

/-- Placeholder token used when indexing outside the pool. -/
def pdummy : PToken := { id := 0, status := _Pdead, allocSeq := 0, hasCaches := false, traceBuf := false }

/-- The token at index i of the pool. -/
def getToken (pool : PPool) (i : Nat) : PToken := pool.tokens.getD i pdummy

/-- The pool created at startup with n tokens. -/
def initPool (n : Nat) : PPool :=
  { tokens := (List.range n).map (fun i =>
      { id := i, status := _Pidle, allocSeq := i, hasCaches := true, traceBuf := false }),
    live := n, nextAlloc := n }

/-- A token counts as newly created by a resize of the given pool when
its allocation stamp is at or beyond the pool's allocation counter. -/
def freshlyCreated (pool : PPool) (t : PToken) : Prop := pool.nextAlloc ≤ t.allocSeq

instance (pool : PPool) (t : PToken) : Decidable (freshlyCreated pool t) :=
  inferInstanceAs (Decidable (_ ≤ _))

lemma getToken_procresize (pool : PPool) (nprocs i : Nat)
    (hi : i < max pool.tokens.length nprocs) :
    getToken (procresize pool nprocs) i = resizeToken pool nprocs i := by
  unfold getToken procresize
  rw [List.getD_eq_getElem?_getD]
  simp only [List.getElem?_map, List.getElem?_range hi]
  rfl

lemma getD_eq_getToken (pool : PPool) (i : Nat) (d : PToken)
    (hi : i < pool.tokens.length) : pool.tokens.getD i d = getToken pool i := by
  unfold getToken
  rw [List.getD_eq_getElem?_getD, List.getD_eq_getElem?_getD,
    List.getElem?_eq_getElem hi]
  rfl

/-! ## Cooperative preemption request (claim C8)

The stack-guard mechanics are documented on g.stackguard0 (runtime2.go
lines 413-427): stackguard0 is the stack pointer compared in the Go stack
growth prologue, is stack.lo + StackGuard normally, and can be set to the
StackPreempt sentinel to trigger a preemption at the next check.  The
constants live in the stack-handling file of the repository, not under
src/, and are modelled here. -/

/-- stack struct (runtime2.go lines 399-402): the bounds are exactly
[lo, hi). -/
structure GoStack where
  lo : Nat
  hi : Nat
deriving DecidableEq, Repr

/-- Modelled from the spec: the guard distance added to stack.lo for the
normal stackguard0 value (928 bytes on the default 64-bit platform). -/
def _StackGuard : Nat := 928

/-- Modelled from the spec: the sentinel stored into stackguard0 to
request preemption.  The repository's stack constants place it at
2^64 - 1314, above every real stack pointer, which is what makes the
next prologue comparison trap. -/
def stackPreempt : Nat := 2 ^ 64 - 1314

/-- The g fields involved in cooperative preemption (runtime2.go lines
412-427 and 443-446). -/
structure GPreempt where
  stack : GoStack
  stackguard0 : Nat
  preempt : Bool
  preemptStop : Bool
deriving DecidableEq, Repr

/-- stackguard0's normal value, stack.lo + StackGuard (line 416). -/
def normalStackGuard0 (g : GPreempt) : Nat := g.stack.lo + _StackGuard

/-- Modelled from the spec: requesting cooperative preemption stores the
stackPreempt sentinel into stackguard0, duplicated by the preempt flag. -/
def requestCoopPreempt (g : GPreempt) : GPreempt :=
  { g with stackguard0 := stackPreempt, preempt := true }

/-- The function-prologue check, per the stackguard0 doc comments: the
prologue traps into the stack-growth/preemption path exactly when the
stack pointer is below stackguard0. -/
def prologueTraps (sp : Nat) (g : GPreempt) : Bool := sp < g.stackguard0

/-! ## extendRandom (runtime2.go lines 903-922, claim C10) -/

/-- sys.PtrSize on the 64-bit targets: the bound of the inner loop of
extendRandom. -/
def ptrSize : Nat := 8

/-- The inner loop of extendRandom (runtime2.go lines 916-920):
for i := 0; i < sys.PtrSize and n < len(r); i++
with body r[n] = byte(h); n++; h >>= 8.
The fuel argument counts the remaining iterations, ptrSize - i; byte(h)
is h mod 256 and h >> 8 is h / 256.  Returns the updated slice and n. -/
def extendInner : List Nat → Nat → Nat → Nat → List Nat × Nat
  | r, n, _, 0 => (r, n)
  | r, n, h, fuel + 1 =>
      if n < r.length then extendInner (r.set n (h % 256)) (n + 1) (h / 256) fuel
      else (r, n)

lemma extendInner_length : ∀ (fuel : Nat) (r : List Nat) (n h : Nat),
    ((extendInner r n h fuel).1).length = r.length := by
  intro fuel
  induction fuel with
  | zero => intro r n h; rfl
  | succ k ih =>
    intro r n h
    by_cases hn : n < r.length
    · simp only [extendInner, if_pos hn, ih, List.length_set]
    · simp only [extendInner, if_neg hn]

lemma extendInner_le : ∀ (fuel : Nat) (r : List Nat) (n h : Nat),
    n ≤ (extendInner r n h fuel).2 := by
  intro fuel
  induction fuel with
  | zero => intro r n h; exact Nat.le_refl n
  | succ k ih =>
    intro r n h
    by_cases hn : n < r.length
    · simp only [extendInner, if_pos hn]
      exact Nat.le_trans (Nat.le_succ n) (ih _ _ _)
    · simp only [extendInner, if_neg hn]
      exact Nat.le_refl n

lemma extendInner_lt (fuel : Nat) (r : List Nat) (n h : Nat)
    (hfuel : 0 < fuel) (hn : n < r.length) : n < (extendInner r n h fuel).2 := by
  cases fuel with
  | zero => exact absurd hfuel (Nat.lt_irrefl 0)
  | succ k =>
    simp only [extendInner, if_pos hn]
    exact Nat.lt_of_lt_of_le (Nat.lt_succ_self n) (extendInner_le k _ _ _)

lemma extendInner_get_below : ∀ (fuel : Nat) (r : List Nat) (n h j : Nat),
    j < n → ((extendInner r n h fuel).1)[j]? = r[j]? := by
  intro fuel
  induction fuel with
  | zero => intro r n h j _; rfl
  | succ k ih =>
    intro r n h j hj
    by_cases hn : n < r.length
    · simp only [extendInner, if_pos hn]
      rw [ih _ _ _ _ (Nat.lt_succ_of_lt hj)]
      rw [List.getElem?_set]
      simp [Nat.ne_of_gt hj]
    · simp only [extendInner, if_neg hn]

lemma extendInner_snd_congr : ∀ (fuel : Nat) (r1 r2 : List Nat) (n h : Nat),
    r1.length = r2.length →
    (extendInner r1 n h fuel).2 = (extendInner r2 n h fuel).2 := by
  intro fuel
  induction fuel with
  | zero => intro r1 r2 n h _; rfl
  | succ k ih =>
    intro r1 r2 n h hl
    by_cases hn : n < r1.length
    · have hn2 : n < r2.length := hl ▸ hn
      simp only [extendInner, if_pos hn, if_pos hn2]
      exact ih _ _ _ _ (by simp [List.length_set, hl])
    · have hn2 : ¬ n < r2.length := hl ▸ hn
      simp only [extendInner, if_neg hn, if_neg hn2]

lemma extendInner_congr : ∀ (fuel : Nat) (r1 r2 : List Nat) (n h : Nat),
    r1.length = r2.length →
    (∀ j, j < n → r1[j]? = r2[j]?) →
    ∀ j, j < (extendInner r1 n h fuel).2 →
      ((extendInner r1 n h fuel).1)[j]? = ((extendInner r2 n h fuel).1)[j]? := by
  intro fuel
  induction fuel with
  | zero => intro r1 r2 n h _ hag j hj; exact hag j hj
  | succ k ih =>
    intro r1 r2 n h hl hag j hj
    by_cases hn : n < r1.length
    · have hn2 : n < r2.length := hl ▸ hn
      simp only [extendInner, if_pos hn] at hj ⊢
      simp only [extendInner, if_pos hn2]
      refine ih _ _ _ _ (by simp [List.length_set, hl]) ?_ j hj
      intro j2 hj2
      rw [List.getElem?_set, List.getElem?_set]
      rcases Nat.lt_or_ge j2 n with hlt | hge
      · simp only [if_neg (Nat.ne_of_gt hlt)]
        exact hag j2 hlt
      · have : j2 = n := Nat.le_antisymm (Nat.lt_succ_iff.mp hj2) hge
        subst this
        simp [hn, hn2, hl]
    · have hn2 : ¬ n < r2.length := hl ▸ hn
      simp only [extendInner, if_neg hn] at hj ⊢
      simp only [extendInner, if_neg hn2]
      exact hag j hj

/-- The w bytes of r starting at index a: the memory that the source
passes to memhash as the pointer &r[n-w] with length w. -/
def byteWindow (r : List Nat) (a w : Nat) : List Nat := (r.drop a).take w

lemma byteWindow_congr (r1 r2 : List Nat) (a w n : Nat) (haw : a + w ≤ n)
    (hag : ∀ j, j < n → r1[j]? = r2[j]?) :
    byteWindow r1 a w = byteWindow r2 a w := by
  apply List.ext_getElem?
  intro k
  unfold byteWindow
  rw [List.getElem?_take, List.getElem?_take]
  by_cases hk : k < w
  · rw [if_pos hk, if_pos hk, List.getElem?_drop, List.getElem?_drop]
    exact hag (a + k) (by omega)
  · rw [if_neg hk, if_neg hk]

/-- The local w of the outer loop body: w := n, capped at 16. -/
def extendW (n : Nat) : Nat := if n > 16 then 16 else n

/-- The local h of the outer loop body: the hash of the previous
w = extendW n bytes of r (the source passes the pointer &r[n-w], the
time seed, and w to memhash). -/
def extendHash (memhash : List Nat → Nat → Nat → Nat) (seeds : Nat → Nat)
    (call : Nat) (r : List Nat) (n : Nat) : Nat :=
  memhash (byteWindow r (n - extendW n) (extendW n)) (seeds call) (extendW n)

/-- The outer loop of extendRandom (runtime2.go lines 909-921): while
n < len(r), hash the previous w = min(n, 16) bytes with a time seed and
spread up to ptrSize bytes of the hash into r.  memhash and nanotime are
external runtime primitives, abstracted as a hash of (bytes, seed, length)
and a stream of seeds indexed by the call number. -/
def extendLoop (memhash : List Nat → Nat → Nat → Nat) (seeds : Nat → Nat)
    (call : Nat) (r : List Nat) (n : Nat) : List Nat :=
  if hlt : n < r.length then
    extendLoop memhash seeds (call + 1)
      (extendInner r n (extendHash memhash seeds call r n) ptrSize).1
      (extendInner r n (extendHash memhash seeds call r n) ptrSize).2
  else r
termination_by r.length - n
decreasing_by
  have h1 := extendInner_length ptrSize r n (extendHash memhash seeds call r n)
  have h2 := extendInner_lt ptrSize r n (extendHash memhash seeds call r n)
    (by decide) hlt
  omega

lemma extendLoop_length : ∀ (fuel : Nat) (memhash : List Nat → Nat → Nat → Nat)
    (seeds : Nat → Nat) (call : Nat) (r : List Nat) (n : Nat),
    r.length - n ≤ fuel →
    (extendLoop memhash seeds call r n).length = r.length := by
  intro fuel
  induction fuel with
  | zero =>
    intro memhash seeds call r n hf
    rw [extendLoop]
    rw [dif_neg (by omega)]
  | succ k ih =>
    intro memhash seeds call r n hf
    rw [extendLoop]
    by_cases hn : n < r.length
    · rw [dif_pos hn]
      have h1 := extendInner_length ptrSize r n (extendHash memhash seeds call r n)
      have h2 := extendInner_lt ptrSize r n (extendHash memhash seeds call r n)
        (by decide) hn
      rw [ih _ _ _ _ _ (by omega)]
      exact h1
    · rw [dif_neg hn]

lemma extendLoop_get_below : ∀ (fuel : Nat) (memhash : List Nat → Nat → Nat → Nat)
    (seeds : Nat → Nat) (call : Nat) (r : List Nat) (n j : Nat),
    r.length - n ≤ fuel → j < n →
    (extendLoop memhash seeds call r n)[j]? = r[j]? := by
  intro fuel
  induction fuel with
  | zero =>
    intro memhash seeds call r n j hf hj
    rw [extendLoop, dif_neg (by omega)]
  | succ k ih =>
    intro memhash seeds call r n j hf hj
    rw [extendLoop]
    by_cases hn : n < r.length
    · rw [dif_pos hn]
      have h1 := extendInner_length ptrSize r n (extendHash memhash seeds call r n)
      have h2 := extendInner_lt ptrSize r n (extendHash memhash seeds call r n)
        (by decide) hn
      rw [ih memhash seeds (call + 1)
        (extendInner r n (extendHash memhash seeds call r n) ptrSize).1
        (extendInner r n (extendHash memhash seeds call r n) ptrSize).2
        j (by omega) (by omega)]
      exact extendInner_get_below ptrSize r n _ j hj
    · rw [dif_neg hn]

lemma extendLoop_congr : ∀ (fuel : Nat) (memhash : List Nat → Nat → Nat → Nat)
    (seeds : Nat → Nat) (call : Nat) (n : Nat) (r1 r2 : List Nat),
    r1.length - n ≤ fuel → r1.length = r2.length →
    (∀ j, j < n → r1[j]? = r2[j]?) →
    extendLoop memhash seeds call r1 n = extendLoop memhash seeds call r2 n := by
  intro fuel
  induction fuel with
  | zero =>
    intro memhash seeds call n r1 r2 hf hl hag
    conv_lhs => rw [extendLoop]
    conv_rhs => rw [extendLoop]
    rw [dif_neg (by omega), dif_neg (by omega)]
    exact List.ext_getElem? fun j => by
      rcases Nat.lt_or_ge j n with hlt | hge
      · exact hag j hlt
      · rw [List.getElem?_eq_none (by omega), List.getElem?_eq_none (by omega)]
  | succ k ih =>
    intro memhash seeds call n r1 r2 hf hl hag
    conv_lhs => rw [extendLoop]
    conv_rhs => rw [extendLoop]
    by_cases hn : n < r1.length
    · have hn2 : n < r2.length := hl ▸ hn
      rw [dif_pos hn, dif_pos hn2]
      have hw : extendW n ≤ n := by
        unfold extendW
        split <;> omega
      have hwin : byteWindow r1 (n - extendW n) (extendW n)
          = byteWindow r2 (n - extendW n) (extendW n) :=
        byteWindow_congr r1 r2 _ _ n (by omega) hag
      have hhash : extendHash memhash seeds call r1 n
          = extendHash memhash seeds call r2 n := by
        unfold extendHash
        rw [hwin]
      have hsnd := extendInner_snd_congr ptrSize r1 r2 n
        (extendHash memhash seeds call r1 n) hl
      have hlen1 := extendInner_length ptrSize r1 n (extendHash memhash seeds call r1 n)
      have hlen2 := extendInner_length ptrSize r2 n (extendHash memhash seeds call r2 n)
      have hprog := extendInner_lt ptrSize r1 n (extendHash memhash seeds call r1 n)
        (by decide) hn
      rw [hhash] at hsnd hlen1 hprog ⊢
      rw [hsnd]
      refine ih _ _ _ _ _ _ (by omega) (by omega) ?_
      intro j hj
      rw [← hsnd] at hj
      have := extendInner_congr ptrSize r1 r2 n
        (extendHash memhash seeds call r2 n) hl hag j hj
      exact this
    · have hn2 : ¬ n < r2.length := hl ▸ hn
      rw [dif_neg hn, dif_neg hn2]
      exact List.ext_getElem? fun j => by
        rcases Nat.lt_or_ge j n with hlt | hge
        · exact hag j hlt
        · rw [List.getElem?_eq_none (by omega), List.getElem?_eq_none (by omega)]

/-- extendRandom (runtime2.go lines 903-922): extends the random numbers
in r[:n] to the whole slice r, treating n < 0 as n == 0. -/
def extendRandom (memhash : List Nat → Nat → Nat → Nat) (seeds : Nat → Nat)
    (r : List Nat) (n : Int) : List Nat :=
  extendLoop memhash seeds 0 r (if n < 0 then (0 : Int) else n).toNat

/-! ## Claim theorems -/

/-- Claim C1: at any instant the atomic status field places a task in
exactly one of the lifecycle states (each status that occurs denotes
exactly one state), and the status acts as a lock on the task's stack:
while the status says runnable-but-unowned (_Grunnable), no component at
all may read or write the stack. -/
theorem gstatus_exactly_one_state_and_stack_lock :
    (∀ s, s ∈ gUsedStatuses → ∃! L, lifecycleOf s = some L) ∧
    (∀ a : StackAccessor, ¬ mayAccessStack _Grunnable a) := by
  constructor
  · decide
  · decide

/-- Claim C1 witness: the running status denotes exactly one lifecycle
state. -/
theorem gstatus_exactly_one_state_and_stack_lock_witness :
    (∃! L, lifecycleOf _Grunning = some L) ∧
    ¬ mayAccessStack _Grunnable StackAccessor.theGoroutine :=
  ⟨gstatus_exactly_one_state_and_stack_lock.1 _Grunning (by decide),
   gstatus_exactly_one_state_and_stack_lock.2 StackAccessor.theGoroutine⟩

/-- Claim C2 counterexample: _Gscanrunning is a defined scan-status
constant, yet it is not the scan bit plus any non-running base status -
its base is _Grunning itself.  The scan modifier therefore does not
combine only with non-running states. -/
theorem gscan_with_running_base_counterexample :
    _Gscanrunning ∈ gScanStatuses ∧
    ¬ ∃ b, b ∈ gBaseStatuses ∧ b ≠ _Grunning ∧ _Gscanrunning = _Gscan + b := by
  decide

/-- Claim C2 (amended): every defined scan-status constant equals the scan
bit plus a base status, recovered exactly by masking the scan bit off
(the state returned to when the scan completes); the base is non-running
for every scan constant except _Gscanrunning, whose base is the running
state and which the source singles out as merely blocking transitions
while the G scans its own stack. -/
theorem gscan_status_decomposition :
    ∀ c, c ∈ gScanStatuses →
      ∃ b, b ∈ gBaseStatuses ∧ c = _Gscan + b ∧ maskOutScan c = b ∧
        (c ≠ _Gscanrunning → b ≠ _Grunning) := by
  decide

/-- Claim C2 witness: the decomposition at _Gscanwaiting. -/
theorem gscan_status_decomposition_witness :
    ∃ b, b ∈ gBaseStatuses ∧ _Gscanwaiting = _Gscan + b ∧
      maskOutScan _Gscanwaiting = b ∧
      (_Gscanwaiting ≠ _Gscanrunning → b ≠ _Grunning) :=
  gscan_status_decomposition _Gscanwaiting (by decide)

/-- Claim C3: the only legal transition out of the preempted status is
the CAS to the blocked (waiting) status that takes responsibility for
readying the task; consequently, on every trace from preempted that
reaches runnable, that CAS is the very first transition and the waiting
status is observed before any runnable status - a wake never races ahead
of the preemption. -/
theorem preempted_cas_to_waiting_before_wake :
    (∀ t, GStep _Gpreempted t → t = _Gwaiting) ∧
    (∀ tr, GTrace _Gpreempted tr → _Grunnable ∈ tr →
      tr.head? = some _Gwaiting ∧
      _Gwaiting ∈ tr.takeWhile (fun s => s ≠ _Grunnable)) := by
  constructor
  · intro t h
    cases h
    rfl
  · intro tr htr hmem
    cases tr with
    | nil => exact absurd hmem (List.not_mem_nil _)
    | cons t rest =>
      have h1 : t = _Gwaiting := by
        have hstep := htr.1
        cases hstep
        rfl
      subst h1
      refine ⟨rfl, ?_⟩
      rw [List.takeWhile_cons]
      simp [_Gwaiting, _Grunnable]

/-- Claim C3 witness: the two-step trace CAS-to-waiting then wake. -/
theorem preempted_cas_to_waiting_before_wake_witness :
    ([_Gwaiting, _Grunnable].head? = some _Gwaiting ∧
      _Gwaiting ∈ [_Gwaiting, _Grunnable].takeWhile (fun s => s ≠ _Grunnable)) :=
  preempted_cas_to_waiting_before_wake.2 [_Gwaiting, _Grunnable]
    ⟨GStep.takeWakeResponsibility, GStep.ready, trivial⟩ (by decide)

/-- Claim C4: a token in the in-syscall status is only ever moved out of
it by a compare-and-swap operation (retake by its affine worker, steal,
or the stop-the-world takeover); a retake CAS fails whenever the token is
no longer in-syscall (stolen), forcing the worker to acquire a different
idle token or block; and a successful retake CAS does not certify the
token unused in the interim: in the exhibited run the token is stolen,
acquired by worker 2, taken through a fresh syscall, and the original
worker 1 still CASes it from in-syscall to running successfully, the
advanced syscalltick witnessing the interim use the worker must
re-validate for. -/
theorem psyscall_exit_only_by_cas_and_aba :
    (∀ (s : PState) (l : PLabel) (s2 : PState), pstep s l = some s2 →
      s.status = _Psyscall → isCASLabel l = true) ∧
    (∀ (s : PState) (mid : Nat), s.status ≠ _Psyscall →
      pstep s (PLabel.casRetake mid) = none) ∧
    prun ⟨_Psyscall, some 1, 5⟩
      [PLabel.casSteal, PLabel.lockedAcquire 2, PLabel.storeSyscall,
       PLabel.casRetake 1] = some ⟨_Prunning, some 1, 6⟩ := by
  refine ⟨?_, ?_, by rfl⟩
  · intro s l s2 h hs
    cases l <;> first
      | rfl
      | (simp only [pstep, hs] at h
         simp [_Pidle, _Prunning, _Psyscall, _Pgcstop] at h)
  · intro s mid hs
    simp only [pstep]
    rw [if_neg hs]

/-- Claim C4 witness: the steal CAS is a CAS, and a retake of a token no
longer in-syscall fails. -/
theorem psyscall_exit_only_by_cas_and_aba_witness :
    isCASLabel PLabel.casSteal = true ∧
    pstep ⟨_Prunning, some 3, 0⟩ (PLabel.casRetake 3) = none :=
  ⟨psyscall_exit_only_by_cas_and_aba.1 ⟨_Psyscall, some 1, 0⟩ PLabel.casSteal
      ⟨_Pidle, none, 0⟩ (by rfl) (by rfl),
   psyscall_exit_only_by_cas_and_aba.2.1 ⟨_Prunning, some 3, 0⟩ 3 (by decide)⟩

/-- Claim C5: whenever the scheduler invariant holds - as it does at
quiescent points - the number of existing tokens equals the configured
limit (len(allp) == gomaxprocs) and the idle, running, in-syscall and
stopped counts sum to that limit; and the invariant is preserved by
every token-status transition and by procresize, so the equation holds
immediately before and after every transition. -/
theorem token_counts_sum_to_gomaxprocs :
    (∀ sm : SchedModel, SchedInv sm →
      sm.allp.length = sm.gomaxprocs ∧
      countPStatus sm _Pidle + countPStatus sm _Prunning +
        countPStatus sm _Psyscall + countPStatus sm _Pgcstop = sm.gomaxprocs) ∧
    (∀ sm sm2 : SchedModel, SchedInv sm → SchedStep sm sm2 → SchedInv sm2) := by
  constructor
  · intro sm hinv
    refine ⟨hinv.1, ?_⟩
    have hpart := filter_partition_pstatus sm.allp hinv.2
    have hlen := hinv.1
    unfold countPStatus
    omega
  · intro sm sm2 hinv hstep
    cases hstep with
    | tokenTransition i newSt hi hnew =>
      refine ⟨by simp [List.length_set, hinv.1], ?_⟩
      intro st hst
      rcases List.mem_or_eq_of_mem_set hst with hmem | heq
      · exact hinv.2 st hmem
      · exact heq ▸ hnew
    | procresizeStep statuses2 h =>
      exact ⟨rfl, h⟩

/-- Claim C5 witness: the count equation on a concrete two-token state. -/
theorem token_counts_sum_to_gomaxprocs_witness :
    (SchedModel.mk 2 [_Prunning, _Pidle]).allp.length
      = (SchedModel.mk 2 [_Prunning, _Pidle]).gomaxprocs ∧
    countPStatus (SchedModel.mk 2 [_Prunning, _Pidle]) _Pidle +
      countPStatus (SchedModel.mk 2 [_Prunning, _Pidle]) _Prunning +
      countPStatus (SchedModel.mk 2 [_Prunning, _Pidle]) _Psyscall +
      countPStatus (SchedModel.mk 2 [_Prunning, _Pidle]) _Pgcstop
      = (SchedModel.mk 2 [_Prunning, _Pidle]).gomaxprocs :=
  token_counts_sum_to_gomaxprocs.1 (SchedModel.mk 2 [_Prunning, _Pidle])
    (by decide)

/-- Claim C6: the local run queue is the bounded circular runq array of
capacity 256 indexed by runqhead and runqtail, plus the single runnext
fast-path slot; dequeueing takes an occupied runnext slot in preference
to the queue proper (leaving the circular queue untouched), and with
runnext empty takes the head entry of the circular queue, the queue being
empty when the indices coincide. -/
theorem runq_capacity_and_runnext_preference :
    runqCapacity = 256 ∧
    (∀ (pp : PQueue) (g : Nat), pp.runnext = some g →
      runqget pp = (some g, { pp with runnext := none })) ∧
    (∀ pp : PQueue, pp.runnext = none → pp.runqhead ≠ pp.runqtail →
      (runqget pp).1 = some (pp.runq.getD (pp.runqhead % runqCapacity) 0) ∧
      (runqget pp).2.runqhead = (pp.runqhead + 1) % uint32Mod ∧
      (runqget pp).2.runq = pp.runq) ∧
    (∀ pp : PQueue, pp.runnext = none → pp.runqhead = pp.runqtail →
      runqget pp = (none, pp)) := by
  refine ⟨rfl, ?_, ?_, ?_⟩
  · intro pp g h
    simp [runqget, h]
  · intro pp h hne
    simp [runqget, h, hne]
  · intro pp h he
    simp [runqget, h, he]

/-- Claim C6 witness: dequeue prefers the runnext slot on a concrete
queue state. -/
theorem runq_capacity_and_runnext_preference_witness :
    runqget (PQueue.mk 3 7 [11, 12, 13] (some 99))
      = (some 99, PQueue.mk 3 7 [11, 12, 13] none) :=
  (runq_capacity_and_runnext_preference.2.1
    (PQueue.mk 3 7 [11, 12, 13] (some 99)) 99 (by rfl))

/-- Claim C7 counterexample: starting from two tokens, lowering the limit
to 1 retires token 1 (it stays in the pool, dead); raising the limit back
to 2 revives that same retired token - the result is exactly the retired
token reinitialized, with its original allocation stamp, not a freshly
created one - as the _Pdead comment documents (Ps are reused if
GOMAXPROCS increases).  This refutes the claim that raising the limit
creates new tokens rather than reviving retired ones. -/
theorem raise_limit_revives_retired_counterexample :
    (getToken (procresize (initPool 2) 1) 1).status = _Pdead ∧
    getToken (procresize (procresize (initPool 2) 1) 2) 1
      = initP 1 (getToken (procresize (initPool 2) 1) 1) ∧
    ¬ freshlyCreated (procresize (initPool 2) 1)
        (getToken (procresize (procresize (initPool 2) 1) 2) 1) := by
  decide

/-- Claim C7 (amended): tokens are retired in place when the limit is
lowered (resources released, status dead, diagnostic buffer retained);
raising the limit reuses - revives - any token still present at the
position, keeping its identity (allocation stamp), and freshly creates a
token only for positions beyond every token ever allocated. -/
theorem procresize_reuse_and_retire (pool : PPool) (nprocs i : Nat) :
    (i < pool.tokens.length →
      (getToken (procresize pool nprocs) i).allocSeq
        = (getToken pool i).allocSeq) ∧
    (nprocs ≤ i → i < pool.live → i < pool.tokens.length →
      (getToken (procresize pool nprocs) i).status = _Pdead ∧
      (getToken (procresize pool nprocs) i).hasCaches = false ∧
      (getToken (procresize pool nprocs) i).traceBuf
        = (getToken pool i).traceBuf) ∧
    (pool.tokens.length ≤ i → i < nprocs →
      freshlyCreated pool (getToken (procresize pool nprocs) i) ∧
      (getToken (procresize pool nprocs) i).status = _Pidle) ∧
    (pool.live ≤ i → i < nprocs → i < pool.tokens.length →
      getToken (procresize pool nprocs) i = initP i (getToken pool i)) := by
  refine ⟨?_, ?_, ?_, ?_⟩
  · intro hlen
    have hmax : i < max pool.tokens.length nprocs :=
      Nat.lt_of_lt_of_le hlen (le_max_left _ _)
    rw [getToken_procresize pool nprocs i hmax]
    simp only [resizeToken, getD_eq_getToken pool i _ hlen]
    split_ifs <;> simp [destroyP, initP]
  · intro hn hl hlen
    have hmax : i < max pool.tokens.length nprocs :=
      Nat.lt_of_lt_of_le hlen (le_max_left _ _)
    rw [getToken_procresize pool nprocs i hmax]
    simp only [resizeToken, getD_eq_getToken pool i _ hlen]
    rw [if_neg (by omega), if_pos ⟨hn, hl⟩]
    exact ⟨rfl, rfl, rfl⟩
  · intro hlen hn
    have hmax : i < max pool.tokens.length nprocs :=
      Nat.lt_of_lt_of_le hn (le_max_right _ _)
    rw [getToken_procresize pool nprocs i hmax]
    simp only [resizeToken]
    rw [List.getD_eq_getElem?_getD, List.getElem?_eq_none hlen]
    split_ifs <;> first
      | omega
      | exact ⟨Nat.le_add_right _ _, rfl⟩
  · intro hl hn hlen
    have hmax : i < max pool.tokens.length nprocs :=
      Nat.lt_of_lt_of_le hlen (le_max_left _ _)
    rw [getToken_procresize pool nprocs i hmax]
    simp only [resizeToken, getD_eq_getToken pool i _ hlen]
    rw [if_pos ⟨hl, hn⟩, if_neg (by omega)]

/-- Claim C7 witness: raising a one-token pool to two creates a fresh
token at the new position. -/
theorem procresize_reuse_and_retire_witness :
    freshlyCreated (initPool 1) (getToken (procresize (initPool 1) 2) 1) ∧
    (getToken (procresize (initPool 1) 2) 1).status = _Pidle :=
  (procresize_reuse_and_retire (initPool 1) 2 1).2.2.1 (by decide) (by decide)

/-- Claim C8 counterexample: on a concrete task whose guard holds the
normal value stack.lo + StackGuard = 4096 + 928, requesting cooperative
preemption stores the sentinel into stackguard0, leaving the guard far
above its previous value: the request raises the guard, it does not
lower it.  (It must: the prologue traps when the stack pointer is below
stackguard0, so only a sentinel above every in-range stack pointer can
force the next check to trap.) -/
theorem preempt_raises_guard_counterexample :
    (GPreempt.mk (GoStack.mk 4096 73728) (4096 + _StackGuard) false
        false).stackguard0
      < (requestCoopPreempt (GPreempt.mk (GoStack.mk 4096 73728)
          (4096 + _StackGuard) false false)).stackguard0 ∧
    (requestCoopPreempt (GPreempt.mk (GoStack.mk 4096 73728)
        (4096 + _StackGuard) false false)).stackguard0 = stackPreempt := by
  constructor
  · decide
  · rfl

/-- Claim C8 (amended): requesting cooperative preemption sets the
per-task stackguard0 (normally stack.lo + StackGuard) to the sentinel
stackPreempt, duplicated by the preempt flag; the sentinel compares above
every real stack pointer, so the next function-prologue comparison of the
stack pointer against the guard traps into the scheduler, while a task
whose stack pointer is at or above its normal guard does not trap.  The
store raises the guard rather than lowering it. -/
theorem preempt_request_sets_sentinel_and_traps (g : GPreempt) (sp : Nat)
    (hsp : sp < stackPreempt) :
    (requestCoopPreempt g).stackguard0 = stackPreempt ∧
    (requestCoopPreempt g).preempt = true ∧
    prologueTraps sp (requestCoopPreempt g) = true ∧
    (g.stackguard0 ≤ sp → prologueTraps sp g = false) := by
  refine ⟨rfl, rfl, ?_, ?_⟩
  · simp [prologueTraps, requestCoopPreempt, hsp]
  · intro hle
    simp [prologueTraps, Nat.not_lt.mpr hle]

/-- Claim C8 witness: the amended statement at a concrete task and stack
pointer. -/
theorem preempt_request_sets_sentinel_and_traps_witness :
    (requestCoopPreempt (GPreempt.mk (GoStack.mk 4096 73728)
        (4096 + _StackGuard) false false)).stackguard0 = stackPreempt ∧
    (requestCoopPreempt (GPreempt.mk (GoStack.mk 4096 73728)
        (4096 + _StackGuard) false false)).preempt = true ∧
    prologueTraps 8192 (requestCoopPreempt (GPreempt.mk (GoStack.mk 4096 73728)
        (4096 + _StackGuard) false false)) = true ∧
    ((GPreempt.mk (GoStack.mk 4096 73728) (4096 + _StackGuard) false
        false).stackguard0 ≤ 8192 →
      prologueTraps 8192 (GPreempt.mk (GoStack.mk 4096 73728)
        (4096 + _StackGuard) false false) = false) :=
  preempt_request_sets_sentinel_and_traps
    (GPreempt.mk (GoStack.mk 4096 73728) (4096 + _StackGuard) false false)
    8192 (by decide)

/-- Claim C9: waitReason.String is total and never indexes out of bounds:
for every uint8 value w it returns the descriptive table entry when w is
a defined wait reason (below the table length, which is 27) and the
unknown-wait-reason string for every other value. -/
theorem waitReason_String_total (w : Nat) (hw : w < 256) :
    waitReasonStrings.length = 27 ∧
    (w < waitReasonStrings.length →
      waitReason.String w = waitReasonStrings.getD w "") ∧
    (waitReasonStrings.length ≤ w →
      waitReason.String w = "unknown wait reason") := by
  refine ⟨by decide, ?_, ?_⟩
  · intro h
    unfold waitReason.String
    rw [if_neg (by omega)]
  · intro h
    unfold waitReason.String
    rw [if_pos (Or.inr h)]

/-- Claim C9 witness: a defined wait reason and an out-of-range value. -/
theorem waitReason_String_total_witness :
    (waitReasonStrings.length = 27 ∧
      (2 < waitReasonStrings.length →
        waitReason.String 2 = waitReasonStrings.getD 2 "") ∧
      (waitReasonStrings.length ≤ 2 →
        waitReason.String 2 = "unknown wait reason")) ∧
    (waitReasonStrings.length = 27 ∧
      (30 < waitReasonStrings.length →
        waitReason.String 30 = waitReasonStrings.getD 30 "") ∧
      (waitReasonStrings.length ≤ 30 →
        waitReason.String 30 = "unknown wait reason")) :=
  ⟨waitReason_String_total 2 (by decide), waitReason_String_total 30 (by decide)⟩

/-- Claim C10: extendRandom terminates on every slice and every integer n
(it is a total function, compiled by well-founded recursion on
len(r) - n, justified by the third conjunct: each outer-loop body
strictly increases n while n < len(r)); it treats negative n as 0; it
preserves the length of r; indices below max(n, 0) are left unchanged;
and every index from max(n, 0) to len(r) - 1 is written: the result does
not depend on the initial contents of r at those indices (two slices of
equal length agreeing below max(n, 0) produce identical results). -/
theorem extendRandom_spec :
    (∀ (memhash : List Nat → Nat → Nat → Nat) (seeds : Nat → Nat)
        (r : List Nat) (n : Int), n < 0 →
      extendRandom memhash seeds r n = extendRandom memhash seeds r 0) ∧
    (∀ (memhash : List Nat → Nat → Nat → Nat) (seeds : Nat → Nat)
        (r : List Nat) (n : Int),
      (extendRandom memhash seeds r n).length = r.length) ∧
    (∀ (r : List Nat) (n hv : Nat), n < r.length →
      n < (extendInner r n hv ptrSize).2) ∧
    (∀ (memhash : List Nat → Nat → Nat → Nat) (seeds : Nat → Nat)
        (r : List Nat) (n : Int) (j : Nat), j < n.toNat →
      (extendRandom memhash seeds r n)[j]? = r[j]?) ∧
    (∀ (memhash : List Nat → Nat → Nat → Nat) (seeds : Nat → Nat)
        (r1 r2 : List Nat) (n : Int), r1.length = r2.length →
      (∀ j, j < n.toNat → r1[j]? = r2[j]?) →
      extendRandom memhash seeds r1 n = extendRandom memhash seeds r2 n) := by
  have hstart : ∀ n : Int, (if n < 0 then (0 : Int) else n).toNat = n.toNat := by
    intro n
    split
    · rename_i hneg
      rw [Int.toNat_zero, Eq.comm, Int.toNat_eq_zero]
      exact le_of_lt hneg
    · rfl
  refine ⟨?_, ?_, ?_, ?_, ?_⟩
  · intro memhash seeds r n hneg
    unfold extendRandom
    rw [if_pos hneg, if_neg (by omega)]
  · intro memhash seeds r n
    unfold extendRandom
    exact extendLoop_length r.length memhash seeds 0 r _ (by omega)
  · intro r n hv hn
    exact extendInner_lt ptrSize r n hv (by decide) hn
  · intro memhash seeds r n j hj
    unfold extendRandom
    exact extendLoop_get_below r.length memhash seeds 0 r _ j (by omega)
      (by rw [hstart]; exact hj)
  · intro memhash seeds r1 r2 n hl hag
    unfold extendRandom
    refine extendLoop_congr r1.length memhash seeds 0 _ r1 r2 (by omega) hl ?_
    intro j hj
    exact hag j (by rw [hstart] at hj; exact hj)

/-- Claim C10 witness: negative n is treated as 0, and the outer-loop
body strictly increases n on a concrete slice. -/
theorem extendRandom_spec_witness :
    extendRandom (fun _ _ _ => 0) (fun _ => 0) [7, 7, 7] (-2)
      = extendRandom (fun _ _ _ => 0) (fun _ => 0) [7, 7, 7] 0 ∧
    1 < (extendInner [9, 0] 1 5 ptrSize).2 :=
  ⟨extendRandom_spec.1 (fun _ _ _ => 0) (fun _ => 0) [7, 7, 7] (-2) (by decide),
   extendRandom_spec.2.2.1 [9, 0] 1 5 (by decide)⟩
